import Mathlib

/-!
Verification development for the tbeat repository (incremental ingestion of
social-media status records into an Elasticsearch index).

The Python source (`tbeat.py`, plus the earlier revision `main.py`) is shallowly
embedded below.  External collaborators are passed in as function parameters:

* `json.loads` / per-line JSON parsing → a parser parameter of type
  `String → Option _`;
* `datetime.strptime` → a parameter `strptime : String → String → Option Int`
  taking the format string and the input, returning an abstract instant;
* the Twitter / Mastodon HTTP APIs → a parameter describing the sequence of
  responses the remote provider delivers;
* the filesystem `is_dir` probe → a parameter `isDir : String → Bool`.

Python generators are embedded as functions returning the list of yielded
records paired with the error (if any) the generator raised after that prefix
was produced, so laziness-with-exceptions is captured by `List α × Option LoadError`.
The retry loop in the likes loader can diverge, which is modelled with fuel:
a `none` result means the loop made `fuel` attempts without returning.
-/

namespace Tbeat

/-!
Python strings are sequences of characters, so the string primitives the code
uses (`len`, slicing, `startswith`, `endswith`, `split`, `==`) are embedded as
structural recursion over `String.data : List Char`.
-/

/-- `len(s)` (character count). -/
def strLen (s : String) : Nat := s.data.length

/-- The slice `s[n:]`. -/
def strDrop (s : String) (n : Nat) : String := ⟨s.data.drop n⟩

/-- `s.startswith(p)`. -/
def strStartsWith (s p : String) : Bool := p.data.isPrefixOf s.data

/-- `s.endswith(p)`. -/
def strEndsWith (s p : String) : Bool := p.data.isSuffixOf s.data

/-- Split a character list at every occurrence of `sep`. -/
def splitOnCharAux (sep : Char) : List Char → List (List Char)
  | [] => [[]]
  | c :: cs =>
    if c = sep then [] :: splitOnCharAux sep cs
    else
      match splitOnCharAux sep cs with
      | [] => [[c]]
      | x :: xs => (c :: x) :: xs

/-- `s.split(sep)` for a one-character separator (as in `source.split(':')`
and splitting a file into lines): `''.split(sep) == ['']`. -/
def strSplitOnChar (sep : Char) (s : String) : List String :=
  (splitOnCharAux sep s.data).map (fun l => ⟨l⟩)

/-- `sep.join(parts)` with a one-character separator. -/
def joinWithChar (sep : Char) (parts : List String) : String :=
  ⟨List.intercalate [sep] (parts.map String.data)⟩

/-- Error conditions raised by the embedded code (Python `ValueError`,
`NotImplementedError`, and JSON decode errors). -/
inductive LoadError where
  /-- `ValueError` from a `user.screen_name` / fqn mismatch. -/
  | identityMismatch
  /-- `ValueError('Please provide user.screen_name')`. -/
  | missingIdentity
  /-- `ValueError('Invalid source. ...')` from `TweetsLoader.load`. -/
  | invalidSource
  /-- `NotImplementedError` from `MastodonLoader.load`. -/
  | notImplemented
  /-- `json.JSONDecodeError` from `json.loads`. -/
  | jsonError
  /-- `ValueError` from unpacking `source.split(':')` into two names. -/
  | unpackError
deriving DecidableEq, Repr

/-- The Python dict `{'screen_name': ...}` used as a tweet's `user` value. -/
structure UserDict where
  screen_name : String
deriving DecidableEq, Repr

/-- A `created_at` value: either already a structured `datetime` (instants are
abstracted as `Int`) or still a textual timestamp. -/
inductive TsValue where
  | dt (instant : Int)
  | str (s : String)
deriving DecidableEq, Repr

/-- A status record (tweet) as a shallow embedding of the Python dict: the
fields the embedded code reads or writes, other payload fields being opaque.
`timestamp` is the `@timestamp` field, absent until the ingester sets it. -/
structure Status where
  id : Nat
  user : Option UserDict := none
  created_at : TsValue := .str ""
  timestamp : Option Int := none
deriving DecidableEq, Repr

/-- One element of the JSON array in a `tweet.js` archive: the record is
wrapped under the `tweet` key. -/
structure JsItem where
  tweet : Status
deriving DecidableEq, Repr

/-- One element of the JSON array in a `like.js` archive:
`datum['like']['tweetId']`. -/
structure LikeEntry where
  tweetId : Nat
deriving DecidableEq, Repr

/-- Python truthiness of an `Optional[str]`: `None` and `''` are falsy. -/
def optStrTruthy : Option String → Bool
  | none => false
  | some s => s ≠ ""

/-- The state of a `TweetsLoader` after `__init__`: `self.since_id = since_id or 0`,
`self.user_dict`, `self.screen_name`. -/
structure TweetsLoaderState where
  since_id : Nat := 0
  user_dict : Option UserDict := none
  screen_name : Option String := none
deriving DecidableEq, Repr

/-- `TweetsLoader.inject_user_dict`: check if `tweet.user` is present; inject
`self.user_dict` if not.  When present and `self.screen_name` is truthy and
differs from `tweet['user']['screen_name']`, raise `ValueError`; when absent
and `self.user_dict` is `None`, raise `ValueError('Please provide user.screen_name')`. -/
def inject_user_dict (self : TweetsLoaderState) (tweet : Status) : Except LoadError Status :=
  match tweet.user with
  | some u =>
    match self.screen_name with
    | some sn => if sn ≠ "" ∧ sn ≠ u.screen_name then .error .identityMismatch else .ok tweet
    | none => .ok tweet
  | none =>
    match self.user_dict with
    | none => .error .missingIdentity
    | some ud => .ok { tweet with user := some ud }

/-- The fixed first line of a single-file `tweet.js` archive
(`prefix` local in `load_tweets_from_js`; 25 characters). -/
def tweetJsHeader : String := "window.YTD.tweet.part0 = "

/-- The fixed first line of a `like.js` archive (24 characters). -/
def likeJsHeader : String := "window.YTD.like.part0 = "

/-- The `for item in data:` loop body of `load_tweets_from_js`: unwrap
`item['tweet']`, keep records with `int(tweet['id']) > int(self.since_id)`,
pass them through `inject_user_dict`, and yield.  Returns the yielded prefix
and the error, if any, on which the generator died. -/
def processJsItems (self : TweetsLoaderState) : List JsItem → List Status × Option LoadError
  | [] => ([], none)
  | item :: rest =>
    if self.since_id < item.tweet.id then
      match inject_user_dict self item.tweet with
      | .error e => ([], some e)
      | .ok t' =>
        match processJsItems self rest with
        | (ts, err) => (t' :: ts, err)
    else processJsItems self rest

/-- `TweetsLoader.load_tweets_from_js`: read the file contents, slice off
`len(prefix)` characters (`js = js[len(prefix):]` — the contents are never
compared against the expected header), `json.loads` the rest, then filter and
yield.  `jp` embeds `json.loads` for this array shape. -/
def load_tweets_from_js (jp : String → Option (List JsItem)) (self : TweetsLoaderState)
    (content : String) : List Status × Option LoadError :=
  match jp (strDrop content (strLen tweetJsHeader)) with
  | none => ([], some .jsonError)
  | some data => processJsItems self data

/-- `str.removeprefix` from Python: drop the header only when actually present. -/
def dropHeader (s h : String) : String :=
  if strStartsWith s h then strDrop s (strLen h) else s

/-- `load_tweets_from_js` from the earlier revision `main.py`: uses
`js.removeprefix(...)`, no watermark filter, no identity check. -/
def mainpy_load_tweets_from_js (jp : String → Option (List JsItem))
    (content : String) : List Status × Option LoadError :=
  match jp (dropHeader content tweetJsHeader) with
  | none => ([], some .jsonError)
  | some data => (data.map (·.tweet), none)

/-- `''.join(f.readlines()[1:])`: everything after the first line. -/
def dropFirstLine (s : String) : String :=
  joinWithChar '\n' ((strSplitOnChar '\n' s).drop 1)

/-- The `for tweet in data:` loop body of `load_tweets_from_js_dir` and
`load_tweets_from_jl`: records are not wrapped under a `tweet` key here. -/
def processPlainTweets (self : TweetsLoaderState) : List Status → List Status × Option LoadError
  | [] => ([], none)
  | t :: rest =>
    if self.since_id < t.id then
      match inject_user_dict self t with
      | .error e => ([], some e)
      | .ok t' =>
        match processPlainTweets self rest with
        | (ts, err) => (t' :: ts, err)
    else processPlainTweets self rest

/-- `TweetsLoader.load_tweets_from_js_dir`: `files` are the contents of the
`*.js` files of the directory in sorted filename order (`sorted(js_dir.glob('*.js'))`);
each file's first line is dropped, the rest parsed as a JSON array of records,
which are filtered and yielded in file order. -/
def load_tweets_from_js_dir (jp : String → Option (List Status)) (self : TweetsLoaderState) :
    List String → List Status × Option LoadError
  | [] => ([], none)
  | f :: rest =>
    match jp (dropFirstLine f) with
    | none => ([], some .jsonError)
    | some data =>
      match processPlainTweets self data with
      | (ts, some e) => (ts, some e)
      | (ts, none) =>
        match load_tweets_from_js_dir jp self rest with
        | (ts2, err2) => (ts ++ ts2, err2)

/-- The per-line loop of `TweetsLoader.load_tweets_from_jl`: `json.loads` each
line, filter by `tweet['id'] > self.since_id`, inject, yield. -/
def processJlLines (jl : String → Option Status) (self : TweetsLoaderState) :
    List String → List Status × Option LoadError
  | [] => ([], none)
  | line :: rest =>
    match jl line with
    | none => ([], some .jsonError)
    | some t =>
      if self.since_id < t.id then
        match inject_user_dict self t with
        | .error e => ([], some e)
        | .ok t' =>
          match processJlLines jl self rest with
          | (ts, err) => (t' :: ts, err)
      else processJlLines jl self rest

/-- `TweetsLoader.load_tweets_from_jl`: iterate over the lines of the file. -/
def load_tweets_from_jl (jl : String → Option Status) (self : TweetsLoaderState)
    (content : String) : List Status × Option LoadError :=
  processJlLines jl self (strSplitOnChar '\n' content)

/-- `TweetsLoader.load_tweets_from_api`: `stream` is the sequence of statuses
delivered by `status_iterator` over the tweepy cursor (rate-limit pauses and
the server-side `since_id` request parameter are the provider's concern and
invisible here).  For `api_name == 'user_timeline'` every status is passed
through `inject_user_dict`; for any other endpoint (`'favorites'`) the raw
status is yielded. -/
def load_tweets_from_api (self : TweetsLoaderState) (api_name : String) :
    List Status → List Status × Option LoadError
  | [] => ([], none)
  | s :: rest =>
    if api_name = "user_timeline" then
      match inject_user_dict self s with
      | .error e => ([], some e)
      | .ok t =>
        match load_tweets_from_api self api_name rest with
        | (ts, err) => (t :: ts, err)
    else
      match load_tweets_from_api self api_name rest with
      | (ts, err) => (s :: ts, err)

/-- One response of `api.statuses_lookup` inside the likes retry loop: either
the call raised `tweepy.RateLimitError` or it returned a list of statuses. -/
inductive LookupResp where
  | rateLimited
  | ok (statuses : List Status)
deriving DecidableEq, Repr

/-- The `while True:` retry loop around `api.statuses_lookup(chunk, ...)` in
`load_tweets_from_like_js`: on `RateLimitError` sleep and retry; on a returned
value, break only `if statuses:` (a non-empty list), otherwise call again.
`attempt n` is the provider's response to the `n`-th call for this chunk;
`none` means the loop made `fuel` calls without breaking. -/
def lookupChunkLoop (attempt : Nat → LookupResp) : Nat → Option (List Status)
  | 0 => none
  | fuel + 1 =>
    match attempt 0 with
    | .rateLimited => lookupChunkLoop (fun n => attempt (n + 1)) fuel
    | .ok statuses =>
      if statuses.isEmpty then lookupChunkLoop (fun n => attempt (n + 1)) fuel
      else some statuses

/-- The list comprehension
`[self.inject_user_dict(status._json) for status in statuses]`:
builds the whole list, propagating the first raised error. -/
def injectList (self : TweetsLoaderState) : List Status → Except LoadError (List Status)
  | [] => .ok []
  | s :: rest =>
    match inject_user_dict self s with
    | .error e => .error e
    | .ok t =>
      match injectList self rest with
      | .error e => .error e
      | .ok ts => .ok (t :: ts)

/-- Recursion worker for `chunksOf`. -/
def chunksOfAux (n : Nat) : Nat → List α → List (List α)
  | _, [] => []
  | 0, _ :: _ => []
  | fuel + 1, x :: xs => (x :: xs).take n :: chunksOfAux n fuel ((x :: xs).drop n)

/-- The successive slices `tweet_ids[i:i + chunk_size]` for
`i in trange(0, len(tweet_ids), chunk_size)` (the fuel argument of the
auxiliary function only forces termination; one slice is consumed per step, so
`l.length` steps always suffice for a positive `n`). -/
def chunksOf (n : Nat) (l : List α) : List (List α) :=
  chunksOfAux n l.length l

/-- The chunked lookup loop of `load_tweets_from_like_js`: for each chunk, run
the retry loop (`attempts c` gives the provider's responses for chunk `c`),
apply `inject_user_dict` to every returned status, and yield the results.
`none` means the retry loop for some chunk never broke within `fuel` calls. -/
def processLikeChunks (attempts : List Nat → Nat → LookupResp) (fuel : Nat)
    (self : TweetsLoaderState) : List (List Nat) → Option (List Status × Option LoadError)
  | [] => some ([], none)
  | c :: rest =>
    match lookupChunkLoop (attempts c) fuel with
    | none => none
    | some statuses =>
      match injectList self statuses with
      | .error e => some ([], some e)
      | .ok ts =>
        match processLikeChunks attempts fuel self rest with
        | none => none
        | some r => some (ts ++ r.1, r.2)

/-- `TweetsLoader.load_tweets_from_like_js`: slice `len(prefix)` characters off
the file contents, `json.loads` the rest, sort the listed `tweetId`s ascending,
and look the statuses up from the API 100 ids at a time.  Note: no `since_id`
comparison appears anywhere in this strategy. -/
def load_tweets_from_like_js (jp : String → Option (List LikeEntry))
    (attempts : List Nat → Nat → LookupResp) (fuel : Nat) (self : TweetsLoaderState)
    (content : String) : Option (List Status × Option LoadError) :=
  match jp (strDrop content (strLen likeJsHeader)) with
  | none => some ([], some .jsonError)
  | some data =>
    let tweet_ids := (data.map (·.tweetId)).insertionSort (· ≤ ·)
    processLikeChunks attempts fuel self (chunksOf 100 tweet_ids)

/-- A Mastodon status as the embedded code sees it: `toot['id']`,
`toot['content']`, and the `toot['content_text']` field the loader adds. -/
structure Toot where
  id : Nat
  content : String := ""
  content_text : Option String := none
deriving DecidableEq, Repr

/-- Tag-stripping state machine embedding `HTMLTagStripper` (`handle_data`
collects text outside tags; character-reference conversion is out of scope). -/
def stripTagsAux : Bool → List Char → List Char
  | _, [] => []
  | false, c :: cs => if c = '<' then stripTagsAux true cs else c :: stripTagsAux false cs
  | true, c :: cs => if c = '>' then stripTagsAux false cs else stripTagsAux true cs

/-- `MastodonLoader._strip_html_tags`. -/
def stripHtmlTags (s : String) : String := ⟨stripTagsAux false s.data⟩

/-- `toot['content_text'] = self._strip_html_tags(toot['content'])`. -/
def processToot (t : Toot) : Toot := { t with content_text := some (stripHtmlTags t.content) }

/-- The Python truthiness test `if self.since_id and toot_id <= self.since_id`:
`None` and `0` watermarks disable the boundary check. -/
def tootAtOrBelowWatermark (since_id : Option Nat) (t : Toot) : Bool :=
  match since_id with
  | none => false
  | some w => decide (w ≠ 0) && decide (t.id ≤ w)

/-- The `for toot in toots:` scan of one page in `load_toots_from_api`: each
toot gets `content_text`, then either the watermark boundary is detected
(`reached_since_id = True; break`) or the toot is yielded.  Returns the yielded
toots of this page and whether the boundary was reached. -/
def scanTootPage (since_id : Option Nat) : List Toot → List Toot × Bool
  | [] => ([], false)
  | t :: ts =>
    if tootAtOrBelowWatermark since_id t then ([], true)
    else
      match scanTootPage since_id ts with
      | (out, reached) => (processToot t :: out, reached)

/-- `MastodonLoader.load_toots_from_api`: the `while not reached_since_id:`
loop.  `pages` is the sequence of responses `api.account_statuses(user_id, max_id=...)`
delivers on successive calls (the `max_id` cursor bookkeeping only determines
what the provider sends and is abstracted into that sequence).  An empty
response breaks the loop.  Returns the yielded toots and the number of
provider calls made; an exhausted `pages` list means the provider's prepared
responses ran out, in which case no further behaviour is modelled. -/
def load_toots_from_api (since_id : Option Nat) : List (List Toot) → List Toot × Nat
  | [] => ([], 0)
  | page :: rest =>
    if page.isEmpty then ([], 1)
    else
      match scanTootPage since_id page with
      | (out, true) => (out, 1)
      | (out, false) =>
        match load_toots_from_api since_id rest with
        | (out2, n) => (out ++ out2, n + 1)

/-- The seven loading strategies a source descriptor can be classified into. -/
inductive Strategy where
  | apiTimeline (screen_name : String)
  | apiFavorites (screen_name : String)
  | mastoApi (fqn : String)
  | tweetJsFile (path : String)
  | jsonlFile (path : String)
  | jsDir (path : String)
  | likeJsFile (path : String)
deriving DecidableEq, Repr

/-- `pathlib.Path(s).name`: the last non-empty slash-separated component. -/
def pathName (s : String) : String :=
  ((strSplitOnChar '/' s).filter (· ≠ "")).getLastD ""

/-- `TweetsLoader.load`: classify the source descriptor, first match wins;
anything unmatched raises `ValueError('Invalid source. ...')`. -/
def tweetsLoaderDispatch (isDir : String → Bool) (source : String) :
    Except LoadError Strategy :=
  if strStartsWith source "api:" then
    .ok (.apiTimeline ((strSplitOnChar ':' source).getD 1 ""))
  else if strStartsWith source "api-fav:" then
    .ok (.apiFavorites ((strSplitOnChar ':' source).getD 1 ""))
  else if strStartsWith (pathName source) "tweet.js" || strStartsWith (pathName source) "tweets.js"
      || strStartsWith (pathName source) "tweets-part" then
    .ok (.tweetJsFile source)
  else if strEndsWith source ".jl" || strEndsWith source ".jsonl" then
    .ok (.jsonlFile source)
  else if isDir source then
    .ok (.jsDir source)
  else if pathName source = "like.js" then
    .ok (.likeJsFile source)
  else
    .error .invalidSource

/-- `MastodonLoader.load`: only `masto-api:<fqn>` is accepted
(`_, fqn = source.split(':')` additionally requires exactly one colon); a
truthy `self.fqn` differing from the descriptor's fqn raises `ValueError`;
any other descriptor raises `NotImplementedError`. -/
def mastodonLoaderDispatch (fqnState : Option String) (source : String) :
    Except LoadError Strategy :=
  if strStartsWith source "masto-api:" then
    match strSplitOnChar ':' source with
    | [_, fqn] =>
      if optStrTruthy fqnState ∧ fqnState ≠ some fqn then .error .identityMismatch
      else .ok (.mastoApi fqn)
    | _ => .error .unpackError
  else .error .notImplemented

/-- The dispatch performed by `main()`: a source starting with `'masto'` is
routed to `MastodonLoader.load`, everything else to `TweetsLoader.load`. -/
def mainDispatch (isDir : String → Bool) (fqnState : Option String) (source : String) :
    Except LoadError Strategy :=
  if strStartsWith source "masto" then mastodonLoaderDispatch fqnState source
  else tweetsLoaderDispatch isDir source

/-- The dispatch order asserted by the specification (§4.2, rules 1–8): the
eight descriptor rules tried in the stated order, first match winning, with
everything unmatched rejected by an invalid-source error.  Stated from the
spec's words, for comparison with the implementation's `mainDispatch`. -/
def claimOrderedDispatch (isDir : String → Bool) (source : String) :
    Except LoadError Strategy :=
  if strStartsWith source "api:" then
    .ok (.apiTimeline ((strSplitOnChar ':' source).getD 1 ""))
  else if strStartsWith source "api-fav:" then
    .ok (.apiFavorites ((strSplitOnChar ':' source).getD 1 ""))
  else if strStartsWith source "masto-api:" then
    .ok (.mastoApi (strDrop source (strLen "masto-api:")))
  else if strStartsWith (pathName source) "tweet.js" || strStartsWith (pathName source) "tweets.js"
      || strStartsWith (pathName source) "tweets-part" then
    .ok (.tweetJsFile source)
  else if strEndsWith source ".jl" || strEndsWith source ".jsonl" then
    .ok (.jsonlFile source)
  else if isDir source then
    .ok (.jsDir source)
  else if pathName source = "like.js" then
    .ok (.likeJsFile source)
  else
    .error .invalidSource

/-- The dispatch rule the code actually implements, stated as one ordered rule
list (the amended form of claim C5): any descriptor starting with `'masto'` is
routed to the federated loader first, which accepts only the full
`masto-api:<fqn>` shape and raises a not-implemented error otherwise; the
remaining seven rules are then tried in the stated order, with an
invalid-source error for descriptors matching none. -/
def amendedOrderedDispatch (isDir : String → Bool) (fqnState : Option String)
    (source : String) : Except LoadError Strategy :=
  if strStartsWith source "masto" then
    if strStartsWith source "masto-api:" then
      match strSplitOnChar ':' source with
      | [_, fqn] =>
        if optStrTruthy fqnState ∧ fqnState ≠ some fqn then .error .identityMismatch
        else .ok (.mastoApi fqn)
      | _ => .error .unpackError
    else .error .notImplemented
  else if strStartsWith source "api:" then
    .ok (.apiTimeline ((strSplitOnChar ':' source).getD 1 ""))
  else if strStartsWith source "api-fav:" then
    .ok (.apiFavorites ((strSplitOnChar ':' source).getD 1 ""))
  else if strStartsWith (pathName source) "tweet.js" || strStartsWith (pathName source) "tweets.js"
      || strStartsWith (pathName source) "tweets-part" then
    .ok (.tweetJsFile source)
  else if strEndsWith source ".jl" || strEndsWith source ".jsonl" then
    .ok (.jsonlFile source)
  else if isDir source then
    .ok (.jsDir source)
  else if pathName source = "like.js" then
    .ok (.likeJsFile source)
  else
    .error .invalidSource

/-- The first format tried by `ElasticsearchIngester.parse_timestamp`
(Twitter's RFC-822-like layout). -/
def fmtTwitter : String := "%a %b %d %H:%M:%S %z %Y"

/-- The second format tried on failure of the first (ISO-like layout). -/
def fmtIso : String := "%Y-%m-%d %H:%M:%S %z"

/-- `ElasticsearchIngester.parse_timestamp`: a value that is already a
`datetime` instance is returned as is; otherwise `datetime.strptime` is tried
with the Twitter layout and, on `ValueError`, with the ISO layout; a second
failure propagates (`none`).  `strptime fmt s` embeds `datetime.strptime(s, fmt)`. -/
def parse_timestamp (strptime : String → String → Option Int) : TsValue → Option Int
  | .dt d => some d
  | .str s =>
    match strptime fmtTwitter s with
    | some r => some r
    | none => strptime fmtIso s

/-- One element yielded by `gen_actions` in `ElasticsearchIngester.ingest`:
`{'_index': self.index, '_id': status['id'], '_source': status}`. -/
structure EsAction where
  index : String
  docId : Nat
  source : Status
deriving DecidableEq, Repr

/-- The `gen_actions` generator of `ElasticsearchIngester.ingest`: for each
status, parse `created_at`, set `status['@timestamp']`, and yield one action
keyed by `status['id']`.  Returns the prefix of actions yielded before any
timestamp-parse failure, and `some` error message if one was raised (actions
already yielded have been handed to the bulk helper: at-least-once semantics). -/
def gen_actions (strptime : String → String → Option Int) (index : String) :
    List Status → List EsAction × Option String
  | [] => ([], none)
  | s :: rest =>
    match parse_timestamp strptime s.created_at with
    | none => ([], some "time data does not match format")
    | some ts =>
      let s' := { s with timestamp := some ts }
      let r := gen_actions strptime index rest
      ({ index := index, docId := s'.id, source := s' } :: r.1, r.2)

/-- A document stored in the destination index, as `get_last_status` reads it
back: its `_source` carries the `@timestamp` set at ingest time. -/
structure EsDoc where
  id : Nat
  timestamp : Int
  user : Option UserDict := none
deriving DecidableEq, Repr

/-- The external store's query: `es.search` with `sort: [{'@timestamp': 'desc'}]`
returns the stored documents ordered by `@timestamp` descending (Elasticsearch
caps the response at the default page size of 10 hits). -/
def esSearchByTimestampDesc (docs : List EsDoc) : List EsDoc :=
  (docs.insertionSort (fun a b => b.timestamp ≤ a.timestamp)).take 10

/-- `ElasticsearchIngester.get_last_status`: `index = none` models a missing
index (the search raises `NotFoundError`, caught and turned into `None`);
otherwise the first hit's `_source` is returned, or `None` if there are no
hits.  Read-only: the function never writes. -/
def get_last_status (index : Option (List EsDoc)) : Option EsDoc :=
  match index with
  | none => none
  | some docs =>
    match esSearchByTimestampDesc docs with
    | [] => none
    | d :: _ => some d

/-!
Concrete instances of the external-collaborator parameters, used to evaluate
the embedded code on specific inputs.
-/

/-- A `json.loads` instance recognising only the empty array body. -/
def jpEmptyArray : String → Option (List JsItem) :=
  fun s => if s = "[]" then some [] else none

/-- 25 characters that are not the expected archive header, then `[]`. -/
def contentNoHeader : String := "XXXXXXXXXXXXXXXXXXXXXXXXX[]"

/-- A `json.loads` instance for a likes archive body `"L"` listing tweetId 50. -/
def likeArchiveParse : String → Option (List LikeEntry) :=
  fun s => if s = "L" then some [⟨50⟩] else none

/-- A likes archive: the expected header followed by the body `"L"`. -/
def likeArchiveContent : String := "window.YTD.like.part0 = L"

/-- A lookup provider delivering status 50 (authored by alice) on every call. -/
def aliceLookupProvider : List Nat → Nat → LookupResp :=
  fun _ _ => .ok [{ id := 50, user := some ⟨"alice"⟩ }]

/-- A lookup provider delivering a status without a `user` dict on every call. -/
def noUserProvider : List Nat → Nat → LookupResp :=
  fun _ _ => .ok [{ id := 50 }]

/-- A `strptime` instance: the Twitter layout parses exactly the text `"T"`
(to instant 1), the ISO layout exactly the text `"I"` (to instant 2). -/
def strptimeTI : String → String → Option Int := fun fmt s =>
  if fmt = fmtTwitter ∧ s = "T" then some 1
  else if fmt = fmtIso ∧ s = "I" then some 2
  else none

/-!  Helper lemmas shared by the claim theorems. -/

theorem inject_ok_id {self : TweetsLoaderState} {t t' : Status}
    (h : inject_user_dict self t = .ok t') : t'.id = t.id := by
  unfold inject_user_dict at h
  cases hu : t.user with
  | some u =>
    rw [hu] at h
    cases hs : self.screen_name with
    | some sn =>
      rw [hs] at h
      dsimp only at h
      by_cases hc : sn ≠ "" ∧ sn ≠ u.screen_name
      · rw [if_pos hc] at h; cases h
      · rw [if_neg hc] at h; cases h; rfl
    | none => rw [hs] at h; dsimp only at h; cases h; rfl
  | none =>
    rw [hu] at h
    cases hd : self.user_dict with
    | none => rw [hd] at h; dsimp only at h; cases h
    | some ud => rw [hd] at h; dsimp only at h; cases h; rfl

theorem inject_ok_user_isSome {self : TweetsLoaderState} {t t' : Status}
    (h : inject_user_dict self t = .ok t') : t'.user.isSome := by
  unfold inject_user_dict at h
  cases hu : t.user with
  | some u =>
    rw [hu] at h
    cases hs : self.screen_name with
    | some sn =>
      rw [hs] at h
      dsimp only at h
      by_cases hc : sn ≠ "" ∧ sn ≠ u.screen_name
      · rw [if_pos hc] at h; cases h
      · rw [if_neg hc] at h; cases h; rw [hu]; rfl
    | none => rw [hs] at h; dsimp only at h; cases h; rw [hu]; rfl
  | none =>
    rw [hu] at h
    cases hd : self.user_dict with
    | none => rw [hd] at h; dsimp only at h; cases h
    | some ud => rw [hd] at h; dsimp only at h; cases h; rfl

theorem injectList_ok_user {self : TweetsLoaderState} :
    ∀ {ss ts : List Status}, injectList self ss = .ok ts → ∀ t ∈ ts, t.user.isSome := by
  intro ss
  induction ss with
  | nil => intro ts h t ht; cases h; cases ht
  | cons s rest ih =>
    intro ts h t ht
    unfold injectList at h
    cases hi : inject_user_dict self s with
    | error e => rw [hi] at h; cases h
    | ok t0 =>
      rw [hi] at h
      cases hr : injectList self rest with
      | error e => rw [hr] at h; cases h
      | ok ts0 =>
        rw [hr] at h; cases h
        rcases List.mem_cons.mp ht with h1 | h1
        · subst h1; exact inject_ok_user_isSome hi
        · exact ih hr t h1

/-!  Claim theorems. -/

/-- C2 (confirmed): for every record passed to `inject_user_dict`: a record
naming an author conflicting with an established (truthy) run author is
rejected with the identity-mismatch error; a record naming an author with no
conflict is returned unmodified; a record naming no author gets the fallback
`user_dict` substituted when one was supplied and is rejected with the
missing-identity error when not. -/
theorem inject_user_dict_cases (self : TweetsLoaderState) (t : Status) :
    (∀ u, t.user = some u → optStrTruthy self.screen_name →
      self.screen_name ≠ some u.screen_name →
      inject_user_dict self t = .error .identityMismatch) ∧
    (∀ u, t.user = some u →
      (optStrTruthy self.screen_name = false ∨ self.screen_name = some u.screen_name) →
      inject_user_dict self t = .ok t) ∧
    (t.user = none → ∀ ud, self.user_dict = some ud →
      inject_user_dict self t = .ok { t with user := some ud }) ∧
    (t.user = none → self.user_dict = none →
      inject_user_dict self t = .error .missingIdentity) := by
  refine ⟨?_, ?_, ?_, ?_⟩
  · intro u hu htr hne
    cases hs : self.screen_name with
    | none => rw [hs] at htr; simp [optStrTruthy] at htr
    | some sn =>
      rw [hs] at htr hne
      have h1 : sn ≠ "" := by simpa [optStrTruthy] using htr
      have h2 : sn ≠ u.screen_name := fun hh => hne (by rw [hh])
      simp only [inject_user_dict, hu, hs]
      rw [if_pos ⟨h1, h2⟩]
  · intro u hu hc
    cases hs : self.screen_name with
    | none => simp only [inject_user_dict, hu, hs]
    | some sn =>
      rw [hs] at hc
      simp only [inject_user_dict, hu, hs]
      rcases hc with hc | hc
      · have h1 : sn = "" := by
          by_contra hne
          rw [show optStrTruthy (some sn) = true by simpa [optStrTruthy] using hne] at hc
          cases hc
        rw [if_neg (fun hh => hh.1 h1)]
      · have h2 : sn = u.screen_name := by injection hc
        rw [if_neg (fun hh => hh.2 h2)]
  · intro hu ud hd
    simp only [inject_user_dict, hu, hd]
  · intro hu hd
    simp only [inject_user_dict, hu, hd]

/-- Witness for C2: concrete runs through each hypothesis of
`inject_user_dict_cases`. -/
theorem inject_user_dict_cases_witness :
    inject_user_dict ⟨0, none, some "alice"⟩ ⟨1, some ⟨"bob"⟩, .str "", none⟩
        = .error .identityMismatch ∧
    inject_user_dict ⟨0, some ⟨"bob"⟩, none⟩ ⟨1, none, .str "", none⟩
        = .ok ⟨1, some ⟨"bob"⟩, .str "", none⟩ ∧
    inject_user_dict ⟨0, none, none⟩ ⟨1, none, .str "", none⟩
        = .error .missingIdentity :=
  ⟨(inject_user_dict_cases ⟨0, none, some "alice"⟩ ⟨1, some ⟨"bob"⟩, .str "", none⟩).1
      ⟨"bob"⟩ rfl (by decide) (by decide),
   (inject_user_dict_cases ⟨0, some ⟨"bob"⟩, none⟩ ⟨1, none, .str "", none⟩).2.2.1
      rfl ⟨"bob"⟩ rfl,
   (inject_user_dict_cases ⟨0, none, none⟩ ⟨1, none, .str "", none⟩).2.2.2 rfl rfl⟩

/-- C5 counterexample: the descriptor `"mastodon.jsonl"` matches the claimed
rule 5 (line-delimited extension) under the claim's ordered dispatch, but the
implementation routes every descriptor starting with `"masto"` to the
federated loader, which rejects it with a not-implemented error rather than
the invalid-source error. -/
theorem dispatch_masto_shadowing :
    claimOrderedDispatch (fun _ => false) "mastodon.jsonl"
        = .ok (.jsonlFile "mastodon.jsonl") ∧
    mainDispatch (fun _ => false) none "mastodon.jsonl" = .error .notImplemented ∧
    LoadError.notImplemented ≠ LoadError.invalidSource :=
  ⟨rfl, rfl, by decide⟩

/-- C5 (amended): the dispatch the code implements equals the amended ordered
rule list: the `"masto"` prefix is tested first and routed to the federated
loader (which accepts only `masto-api:<fqn>` and raises not-implemented
otherwise); the remaining seven rules are tried in the stated order with first
match winning, and descriptors matching none fail with the invalid-source
error. -/
theorem dispatch_follows_amended_order (isDir : String → Bool)
    (fqnState : Option String) (source : String) :
    mainDispatch isDir fqnState source = amendedOrderedDispatch isDir fqnState source := by
  unfold mainDispatch amendedOrderedDispatch mastodonLoaderDispatch tweetsLoaderDispatch
  rfl

/-- C7 counterexample: a single-file archive whose first 25 characters are not
the fixed header loads without any error: the characters are sliced off by
length and the remainder is handed to the JSON parser. -/
theorem missing_header_no_error :
    strStartsWith contentNoHeader tweetJsHeader = false ∧
    load_tweets_from_js jpEmptyArray {} contentNoHeader = ([], none) :=
  ⟨rfl, rfl⟩

/-- C7 (amended): `load_tweets_from_js` never inspects the header: its result
depends only on the characters after position `len(prefix)`, so two contents
agreeing there — one carrying the real header, one not — load identically, and
no malformed-archive error exists. -/
theorem tweet_js_header_skipped_by_length (jp : String → Option (List JsItem))
    (self : TweetsLoaderState) (c1 c2 : String)
    (h : strDrop c1 (strLen tweetJsHeader) = strDrop c2 (strLen tweetJsHeader)) :
    load_tweets_from_js jp self c1 = load_tweets_from_js jp self c2 := by
  unfold load_tweets_from_js
  rw [h]

/-- Witness for C7 (amended): the genuine archive
`"window.YTD.tweet.part0 = []"` and the headerless `contentNoHeader` agree
after 25 characters and load identically. -/
theorem tweet_js_header_skipped_by_length_witness :
    strDrop "window.YTD.tweet.part0 = []" (strLen tweetJsHeader)
        = strDrop contentNoHeader (strLen tweetJsHeader) ∧
    load_tweets_from_js jpEmptyArray {} "window.YTD.tweet.part0 = []"
        = load_tweets_from_js jpEmptyArray {} contentNoHeader :=
  ⟨rfl, tweet_js_header_skipped_by_length jpEmptyArray {} _ _ rfl⟩

/-- C8 (confirmed): when `gen_actions` raises no error, it emits exactly one
indexed-write action per input record, in order, whose document id is the
record's `id` and whose target index is the destination index name. -/
theorem ingest_one_action_per_record (strptime : String → String → Option Int)
    (index : String) (ss : List Status)
    (h : (gen_actions strptime index ss).2 = none) :
    List.Forall₂ (fun (s : Status) (a : EsAction) => a.docId = s.id ∧ a.index = index)
      ss (gen_actions strptime index ss).1 := by
  induction ss with
  | nil => exact .nil
  | cons s rest ih =>
    rcases hp : parse_timestamp strptime s.created_at with _ | ts
    · simp [gen_actions, hp] at h
    · simp only [gen_actions, hp] at h ⊢
      exact .cons ⟨rfl, rfl⟩ (ih h)

/-- Witness for C8: a two-record batch yields two actions keyed by the record
ids and aimed at the destination index. -/
theorem ingest_one_action_per_record_witness :
    List.Forall₂ (fun (s : Status) (a : EsAction) => a.docId = s.id ∧ a.index = "idx")
      [⟨7, none, .dt 0, none⟩, ⟨9, none, .dt 1, none⟩]
      (gen_actions strptimeTI "idx" [⟨7, none, .dt 0, none⟩, ⟨9, none, .dt 1, none⟩]).1 :=
  ingest_one_action_per_record strptimeTI "idx"
    [⟨7, none, .dt 0, none⟩, ⟨9, none, .dt 1, none⟩] rfl

/-- C10 (confirmed): the per-batch retry loop of the likes strategy breaks
only on a non-empty lookup result; as long as the provider keeps answering
with a rate-limit signal or an empty list, the loop re-issues the call
forever — for any amount of fuel it fails to terminate. -/
theorem likes_lookup_retry_nontermination (attempt : Nat → LookupResp)
    (h : ∀ n, attempt n = .rateLimited ∨ attempt n = .ok []) :
    ∀ fuel, lookupChunkLoop attempt fuel = none := by
  intro fuel
  induction fuel generalizing attempt with
  | zero => rfl
  | succ n ih =>
    unfold lookupChunkLoop
    rcases h 0 with h0 | h0 <;> rw [h0]
    · exact ih _ (fun k => h (k + 1))
    · simp only [List.isEmpty_nil, if_pos]
      exact ih _ (fun k => h (k + 1))

/-- Witness for C10: a provider whose every batch lookup returns the empty
list (every liked status deleted) keeps the loop spinning for (e.g.) 7 calls. -/
theorem likes_lookup_retry_nontermination_witness :
    lookupChunkLoop (fun _ => .ok []) 7 = none :=
  likes_lookup_retry_nontermination (fun _ => .ok []) (fun _ => Or.inr rfl) 7

/-- C6 (confirmed): `created_at` is parsed by trying the Twitter RFC-822-like
layout first and, only on its failure, the ISO-like layout; every action the
ingest generator emits carries the parse result as its `@timestamp`, and a
record whose `created_at` fails both layouts makes the generator raise, so no
record is ever stored without a parsed `@timestamp`. -/
theorem ingest_timestamp_parsing (strptime : String → String → Option Int)
    (index : String) (ss : List Status) :
    (∀ s r, strptime fmtTwitter s = some r → parse_timestamp strptime (.str s) = some r) ∧
    (∀ s, strptime fmtTwitter s = none → parse_timestamp strptime (.str s) = strptime fmtIso s) ∧
    (∀ a ∈ (gen_actions strptime index ss).1,
      a.source.timestamp = parse_timestamp strptime a.source.created_at ∧
      a.source.timestamp.isSome) ∧
    ((∃ s ∈ ss, parse_timestamp strptime s.created_at = none) →
      (gen_actions strptime index ss).2.isSome) := by
  refine ⟨?_, ?_, ?_, ?_⟩
  · intro s r h; simp [parse_timestamp, h]
  · intro s h; simp [parse_timestamp, h]
  · induction ss with
    | nil => intro a ha; simp [gen_actions] at ha
    | cons s rest ih =>
      intro a ha
      rcases hp : parse_timestamp strptime s.created_at with _ | ts
      · simp [gen_actions, hp] at ha
      · simp only [gen_actions, hp] at ha
        rcases List.mem_cons.mp ha with h1 | h1
        · subst h1
          exact ⟨by simpa using hp.symm, rfl⟩
        · exact ih a h1
  · induction ss with
    | nil => rintro ⟨s, hs, -⟩; cases hs
    | cons s rest ih =>
      rintro ⟨x, hx, hpx⟩
      rcases hp : parse_timestamp strptime s.created_at with _ | ts
      · simp [gen_actions, hp]
      · simp only [gen_actions, hp]
        rcases List.mem_cons.mp hx with h1 | h1
        · subst h1; rw [hp] at hpx; cases hpx
        · exact ih ⟨x, h1, hpx⟩

/-- Witness for C6: with the concrete `strptimeTI`, the text `"T"` is settled
by the first layout, the text `"I"` falls back to the second layout, and a
batch containing the unparseable text `"bad"` makes the generator raise. -/
theorem ingest_timestamp_parsing_witness :
    parse_timestamp strptimeTI (.str "T") = some 1 ∧
    parse_timestamp strptimeTI (.str "I") = strptimeTI fmtIso "I" ∧
    (gen_actions strptimeTI "idx" [⟨3, none, .str "bad", none⟩]).2.isSome :=
  ⟨(ingest_timestamp_parsing strptimeTI "idx" []).1 "T" 1 rfl,
   (ingest_timestamp_parsing strptimeTI "idx" []).2.1 "I" rfl,
   (ingest_timestamp_parsing strptimeTI "idx" [⟨3, none, .str "bad", none⟩]).2.2.2
     ⟨⟨3, none, .str "bad", none⟩, by simp, rfl⟩⟩

/-- C9 (confirmed): the watermark resolver returns `None` both for a missing
index and for an existing empty one; for a non-empty index it returns a stored
document whose `@timestamp` is maximal, i.e. the first document of the
descending-by-`@timestamp` ordering; the function is read-only by
construction. -/
theorem get_last_status_cases :
    get_last_status none = none ∧
    get_last_status (some []) = none ∧
    (∀ docs : List EsDoc, docs ≠ [] →
      ∃ d, get_last_status (some docs) = some d ∧ d ∈ docs ∧
        ∀ d' ∈ docs, d'.timestamp ≤ d.timestamp) := by
  refine ⟨rfl, rfl, ?_⟩
  intro docs hne
  haveI : IsTotal EsDoc (fun a b => b.timestamp ≤ a.timestamp) :=
    ⟨fun a b => le_total b.timestamp a.timestamp⟩
  haveI : IsTrans EsDoc (fun a b => b.timestamp ≤ a.timestamp) :=
    ⟨fun _ _ _ hab hbc => le_trans hbc hab⟩
  have hperm := List.perm_insertionSort (fun a b : EsDoc => b.timestamp ≤ a.timestamp) docs
  have hsorted := List.sorted_insertionSort (fun a b : EsDoc => b.timestamp ≤ a.timestamp) docs
  rcases hs : docs.insertionSort (fun a b => b.timestamp ≤ a.timestamp) with _ | ⟨d, rest⟩
  · rw [hs] at hperm
    exact absurd (hperm.symm.eq_nil) hne
  · refine ⟨d, ?_, ?_, ?_⟩
    · have ht : List.take 10 (d :: rest) = d :: List.take 9 rest := rfl
      simp only [get_last_status, esSearchByTimestampDesc, hs, ht]
    · rw [hs] at hperm
      exact hperm.mem_iff.mp (List.mem_cons_self d rest)
    · intro d' hd'
      rw [hs] at hperm hsorted
      rcases List.mem_cons.mp (hperm.mem_iff.mpr hd') with h1 | h1
      · subst h1; exact le_refl _
      · exact List.rel_of_sorted_cons hsorted d' h1

/-- Witness for C9: a concrete three-document index resolves to the document
with the greatest `@timestamp`. -/
theorem get_last_status_cases_witness :
    ∃ d, get_last_status (some [⟨1, 5, none⟩, ⟨2, 9, none⟩, ⟨3, 7, none⟩]) = some d ∧
      d ∈ [⟨1, 5, none⟩, ⟨2, 9, none⟩, ⟨3, 7, none⟩] ∧
      ∀ d' ∈ [(⟨1, 5, none⟩ : EsDoc), ⟨2, 9, none⟩, ⟨3, 7, none⟩],
        d'.timestamp ≤ d.timestamp :=
  get_last_status_cases.2.2 [⟨1, 5, none⟩, ⟨2, 9, none⟩, ⟨3, 7, none⟩] (by simp)

/-!  Watermark lemmas per strategy. -/

theorem processToot_id (t : Toot) : (processToot t).id = t.id := rfl

theorem processJsItems_above {self : TweetsLoaderState} :
    ∀ items : List JsItem, ∀ t ∈ (processJsItems self items).1, self.since_id < t.id := by
  intro items
  induction items with
  | nil => intro t ht; simp [processJsItems] at ht
  | cons item rest ih =>
    intro t ht
    simp only [processJsItems] at ht
    split at ht
    · rename_i hlt
      split at ht
      · simp at ht
      · rename_i t0 hok
        dsimp only at ht
        rcases List.mem_cons.mp ht with h1 | h1
        · subst h1; rw [inject_ok_id hok]; exact hlt
        · exact ih t h1
    · exact ih t ht

theorem processPlainTweets_above {self : TweetsLoaderState} :
    ∀ data : List Status, ∀ t ∈ (processPlainTweets self data).1, self.since_id < t.id := by
  intro data
  induction data with
  | nil => intro t ht; simp [processPlainTweets] at ht
  | cons s rest ih =>
    intro t ht
    simp only [processPlainTweets] at ht
    split at ht
    · rename_i hlt
      split at ht
      · simp at ht
      · rename_i t0 hok
        dsimp only at ht
        rcases List.mem_cons.mp ht with h1 | h1
        · subst h1; rw [inject_ok_id hok]; exact hlt
        · exact ih t h1
    · exact ih t ht

theorem load_tweets_from_js_dir_above {jp : String → Option (List Status)}
    {self : TweetsLoaderState} :
    ∀ files : List String, ∀ t ∈ (load_tweets_from_js_dir jp self files).1,
      self.since_id < t.id := by
  intro files
  induction files with
  | nil => intro t ht; simp [load_tweets_from_js_dir] at ht
  | cons f rest ih =>
    intro t ht
    simp only [load_tweets_from_js_dir] at ht
    split at ht
    · simp at ht
    · rename_i data hjp
      split at ht
      · rename_i ts e hpr
        apply processPlainTweets_above data
        rw [hpr]
        exact ht
      · rename_i ts hpr
        dsimp only at ht
        rcases List.mem_append.mp ht with h1 | h1
        · apply processPlainTweets_above data; rw [hpr]; exact h1
        · exact ih t h1

theorem processJlLines_above {jl : String → Option Status} {self : TweetsLoaderState} :
    ∀ lines : List String, ∀ t ∈ (processJlLines jl self lines).1, self.since_id < t.id := by
  intro lines
  induction lines with
  | nil => intro t ht; simp [processJlLines] at ht
  | cons line rest ih =>
    intro t ht
    simp only [processJlLines] at ht
    split at ht
    · simp at ht
    · rename_i s hjl
      split at ht
      · rename_i hlt
        split at ht
        · simp at ht
        · rename_i t0 hok
          dsimp only at ht
          rcases List.mem_cons.mp ht with h1 | h1
          · subst h1; rw [inject_ok_id hok]; exact hlt
          · exact ih t h1
      · exact ih t ht

theorem scanTootPage_above {W : Nat} (hW : 0 < W) :
    ∀ page : List Toot, ∀ t ∈ (scanTootPage (some W) page).1, W < t.id := by
  intro page
  induction page with
  | nil => intro t ht; simp [scanTootPage] at ht
  | cons x xs ih =>
    intro t ht
    simp only [scanTootPage] at ht
    split at ht
    · simp at ht
    · rename_i hb
      dsimp only at ht
      rcases List.mem_cons.mp ht with h1 | h1
      · subst h1
        rw [processToot_id]
        have hb' : ¬W = 0 → W < x.id := by simpa [tootAtOrBelowWatermark] using hb
        exact hb' (Nat.pos_iff_ne_zero.mp hW)
      · exact ih t h1

theorem load_toots_from_api_above {W : Nat} (hW : 0 < W) :
    ∀ pages : List (List Toot), ∀ t ∈ (load_toots_from_api (some W) pages).1, W < t.id := by
  intro pages
  induction pages with
  | nil => intro t ht; simp [load_toots_from_api] at ht
  | cons page rest ih =>
    intro t ht
    simp only [load_toots_from_api] at ht
    split at ht
    · simp at ht
    · split at ht
      · rename_i out hscan
        apply scanTootPage_above hW page
        rw [hscan]
        exact ht
      · rename_i out hscan
        dsimp only at ht
        rcases List.mem_append.mp ht with h1 | h1
        · apply scanTootPage_above hW page; rw [hscan]; exact h1
        · exact ih t h1

/-- C1 counterexample: with a watermark of 100, the likes-lookup strategy
still emits the looked-up status 50: the strategy never compares ids against
`since_id`. -/
theorem likes_strategy_emits_below_watermark :
    load_tweets_from_like_js likeArchiveParse aliceLookupProvider 1
        { since_id := 100 } likeArchiveContent
      = some ([{ id := 50, user := some ⟨"alice"⟩ }], none) ∧
    (50 : Nat) ≤ 100 :=
  ⟨rfl, by decide⟩

/-- C1 (amended): the `id > since_id` watermark filter holds for the
single-file archive, monthly-archive directory, line-delimited and
federated-network strategies (the federated one under a truthy watermark):
no record at or below the watermark is ever yielded by them.  The remote
timeline strategy only delegates the filter to the provider via the
`since_id` request parameter, and the likes-lookup strategy applies no
watermark filter at all. -/
theorem watermark_filter_strategies :
    (∀ (jp : String → Option (List JsItem)) (self : TweetsLoaderState) (content : String),
      ∀ t ∈ (load_tweets_from_js jp self content).1, self.since_id < t.id) ∧
    (∀ (jp : String → Option (List Status)) (self : TweetsLoaderState) (files : List String),
      ∀ t ∈ (load_tweets_from_js_dir jp self files).1, self.since_id < t.id) ∧
    (∀ (jl : String → Option Status) (self : TweetsLoaderState) (content : String),
      ∀ t ∈ (load_tweets_from_jl jl self content).1, self.since_id < t.id) ∧
    (∀ (W : Nat) (pages : List (List Toot)), 0 < W →
      ∀ t ∈ (load_toots_from_api (some W) pages).1, W < t.id) := by
  refine ⟨?_, ?_, ?_, ?_⟩
  · intro jp self content t ht
    simp only [load_tweets_from_js] at ht
    split at ht
    · simp at ht
    · rename_i data hjp
      exact processJsItems_above data t ht
  · intro jp self files t ht
    exact load_tweets_from_js_dir_above files t ht
  · intro jl self content t ht
    exact processJlLines_above _ t ht
  · intro W pages hW t ht
    exact load_toots_from_api_above hW pages t ht

/-- Witness for C1 (amended): a concrete single-file archive holding records
91 and 101 under watermark 100 yields only record 101, which indeed exceeds
the watermark. -/
theorem watermark_filter_strategies_witness :
    load_tweets_from_js
        (fun s => if s = "[]" then some [⟨⟨91, some ⟨"a"⟩, .str "", none⟩⟩,
                                         ⟨⟨101, some ⟨"a"⟩, .str "", none⟩⟩] else none)
        { since_id := 100 } "window.YTD.tweet.part0 = []"
      = ([⟨101, some ⟨"a"⟩, .str "", none⟩], none) ∧
    (100 : Nat) < 101 :=
  ⟨rfl,
   watermark_filter_strategies.1
     (fun s => if s = "[]" then some [⟨⟨91, some ⟨"a"⟩, .str "", none⟩⟩,
                                      ⟨⟨101, some ⟨"a"⟩, .str "", none⟩⟩] else none)
     { since_id := 100 } "window.YTD.tweet.part0 = []"
     ⟨101, some ⟨"a"⟩, .str "", none⟩ (by exact List.mem_singleton_self _)⟩

/-- C3 counterexample: the likes-lookup strategy does subject its records to
the fallback-injection check: the provider delivers status 50 without any
`user` dict, yet the record the strategy yields carries the injected fallback
identity bob. -/
theorem processJsItems_inject {self : TweetsLoaderState} :
    ∀ items : List JsItem, ∀ t ∈ (processJsItems self items).1,
      ∃ s, inject_user_dict self s = .ok t := by
  intro items
  induction items with
  | nil => intro t ht; simp [processJsItems] at ht
  | cons item rest ih =>
    intro t ht
    simp only [processJsItems] at ht
    split at ht
    · split at ht
      · simp at ht
      · rename_i t0 hok
        dsimp only at ht
        rcases List.mem_cons.mp ht with h1 | h1
        · subst h1; exact ⟨item.tweet, hok⟩
        · exact ih t h1
    · exact ih t ht

theorem processPlainTweets_inject {self : TweetsLoaderState} :
    ∀ data : List Status, ∀ t ∈ (processPlainTweets self data).1,
      ∃ s, inject_user_dict self s = .ok t := by
  intro data
  induction data with
  | nil => intro t ht; simp [processPlainTweets] at ht
  | cons s0 rest ih =>
    intro t ht
    simp only [processPlainTweets] at ht
    split at ht
    · split at ht
      · simp at ht
      · rename_i t0 hok
        dsimp only at ht
        rcases List.mem_cons.mp ht with h1 | h1
        · subst h1; exact ⟨s0, hok⟩
        · exact ih t h1
    · exact ih t ht

theorem load_tweets_from_js_dir_inject {jp : String → Option (List Status)}
    {self : TweetsLoaderState} :
    ∀ files : List String, ∀ t ∈ (load_tweets_from_js_dir jp self files).1,
      ∃ s, inject_user_dict self s = .ok t := by
  intro files
  induction files with
  | nil => intro t ht; simp [load_tweets_from_js_dir] at ht
  | cons f rest ih =>
    intro t ht
    simp only [load_tweets_from_js_dir] at ht
    split at ht
    · simp at ht
    · rename_i data hjp
      split at ht
      · rename_i ts e hpr
        apply processPlainTweets_inject data
        rw [hpr]; exact ht
      · rename_i ts hpr
        dsimp only at ht
        rcases List.mem_append.mp ht with h1 | h1
        · apply processPlainTweets_inject data; rw [hpr]; exact h1
        · exact ih t h1

theorem processJlLines_inject {jl : String → Option Status} {self : TweetsLoaderState} :
    ∀ lines : List String, ∀ t ∈ (processJlLines jl self lines).1,
      ∃ s, inject_user_dict self s = .ok t := by
  intro lines
  induction lines with
  | nil => intro t ht; simp [processJlLines] at ht
  | cons line rest ih =>
    intro t ht
    simp only [processJlLines] at ht
    split at ht
    · simp at ht
    · rename_i s0 hjl
      split at ht
      · split at ht
        · simp at ht
        · rename_i t0 hok
          dsimp only at ht
          rcases List.mem_cons.mp ht with h1 | h1
          · subst h1; exact ⟨s0, hok⟩
          · exact ih t h1
      · exact ih t ht

theorem scanTootPage_yield {sid : Option Nat} :
    ∀ pg : List Toot, ∀ t2 ∈ (scanTootPage sid pg).1, ∃ t ∈ pg, t2 = processToot t := by
  intro pg
  induction pg with
  | nil => intro t2 ht; simp [scanTootPage] at ht
  | cons x xs ih =>
    intro t2 ht
    simp only [scanTootPage] at ht
    split at ht
    · simp at ht
    · dsimp only at ht
      rcases List.mem_cons.mp ht with h1 | h1
      · exact ⟨x, List.mem_cons_self x xs, h1⟩
      · rcases ih t2 h1 with ⟨t, htm, heq⟩
        exact ⟨t, List.mem_cons_of_mem x htm, heq⟩

theorem load_toots_from_api_yield {sid : Option Nat} :
    ∀ pages : List (List Toot), ∀ t2 ∈ (load_toots_from_api sid pages).1,
      ∃ t ∈ pages.flatten, t2 = processToot t := by
  intro pages
  induction pages with
  | nil => intro t2 ht; simp [load_toots_from_api] at ht
  | cons page rest ih =>
    intro t2 ht
    simp only [load_toots_from_api] at ht
    split at ht
    · simp at ht
    · split at ht
      · rename_i out hscan
        rcases scanTootPage_yield page t2 (by rw [hscan]; exact ht) with ⟨t, htm, heq⟩
        refine ⟨t, ?_, heq⟩
        rw [List.flatten_cons]
        exact List.mem_append.mpr (Or.inl htm)
      · rename_i out hscan
        dsimp only at ht
        rcases List.mem_append.mp ht with h1 | h1
        · rcases scanTootPage_yield page t2 (by rw [hscan]; exact h1) with ⟨t, htm, heq⟩
          refine ⟨t, ?_, heq⟩
          rw [List.flatten_cons]
          exact List.mem_append.mpr (Or.inl htm)
        · rcases ih t2 h1 with ⟨t, htm, heq⟩
          refine ⟨t, ?_, heq⟩
          rw [List.flatten_cons]
          exact List.mem_append.mpr (Or.inr htm)

theorem splitOnCharAux_no_sep (sep : Char) :
    ∀ cs : List Char, sep ∉ cs → splitOnCharAux sep cs = [cs] := by
  intro cs
  induction cs with
  | nil => intro _; rfl
  | cons c cs2 ih =>
    intro h
    have hc : ¬c = sep := by rintro rfl; exact h (List.mem_cons_self _ _)
    have h2 : sep ∉ cs2 := fun hh => h (List.mem_cons_of_mem c hh)
    simp [splitOnCharAux, hc, ih h2]

theorem isPrefixOf_append_self (l t : List Char) : l.isPrefixOf (l ++ t) = true := by
  induction l with
  | nil => simp [List.isPrefixOf]
  | cons c cs ih => simp [List.isPrefixOf, ih]

theorem strSplitOnChar_masto_api (fqn : String) (h : ':' ∉ fqn.data) :
    strSplitOnChar ':' ("masto-api:" ++ fqn) = ["masto-api", fqn] := by
  have hdata : ("masto-api:" ++ fqn).data
      = 'm' :: 'a' :: 's' :: 't' :: 'o' :: '-' :: 'a' :: 'p' :: 'i' :: ':' :: fqn.data := rfl
  unfold strSplitOnChar
  rw [hdata]
  simp [splitOnCharAux, splitOnCharAux_no_sep ':' fqn.data h]

theorem strStartsWith_masto_api (fqn : String) :
    strStartsWith ("masto-api:" ++ fqn) "masto-api:" = true := by
  show ("masto-api:").data.isPrefixOf (("masto-api:" ++ fqn).data) = true
  have hdata : ("masto-api:" ++ fqn).data = "masto-api:".data ++ fqn.data := rfl
  rw [hdata]
  exact isPrefixOf_append_self _ _

theorem likes_strategy_applies_identity_injection :
    (∀ c n, noUserProvider c n = .ok [{ id := 50 }]) ∧
    load_tweets_from_like_js likeArchiveParse noUserProvider 1
        { user_dict := some ⟨"bob"⟩ } likeArchiveContent
      = some ([{ id := 50, user := some ⟨"bob"⟩ }], none) :=
  ⟨fun _ _ => rfl, rfl⟩

/-- C3 (amended): identity reconciliation is applied per record by the
single-file archive, monthly-archive directory, line-delimited, remote
timeline and likes-lookup strategies: every record they yield has passed
`inject_user_dict` (in particular, the likes-lookup strategy is not exempt,
and every record a successful likes lookup yields carries an author).  Only
the favorites variant skips the per-record check, yielding the provider's
records unmodified and unchecked — and the federated-network strategy
performs no per-record identity check either: every toot it yields is a
provider-delivered toot with only `content_text` added, its sole identity
guard being the one-time dispatch comparison of the descriptor's fqn against
the index's last author, which rejects a conflicting pair with the
identity-mismatch error before any record is fetched. -/
theorem identity_check_application :
    (∀ (self : TweetsLoaderState) (stream : List Status),
      load_tweets_from_api self "favorites" stream = (stream, none)) ∧
    (∀ (self : TweetsLoaderState) (stream : List Status),
      (load_tweets_from_api self "user_timeline" stream).2 = none →
      List.Forall₂ (fun s t => inject_user_dict self s = .ok t) stream
        (load_tweets_from_api self "user_timeline" stream).1) ∧
    (∀ (attempts : List Nat → Nat → LookupResp) (fuel : Nat)
       (self : TweetsLoaderState) (cs : List (List Nat)) (r : List Status × Option LoadError),
      processLikeChunks attempts fuel self cs = some r →
      ∀ t ∈ r.1, t.user.isSome) ∧
    (∀ (jp : String → Option (List JsItem)) (self : TweetsLoaderState) (content : String),
      ∀ t ∈ (load_tweets_from_js jp self content).1,
        ∃ s, inject_user_dict self s = .ok t) ∧
    (∀ (jp : String → Option (List Status)) (self : TweetsLoaderState) (files : List String),
      ∀ t ∈ (load_tweets_from_js_dir jp self files).1,
        ∃ s, inject_user_dict self s = .ok t) ∧
    (∀ (jl : String → Option Status) (self : TweetsLoaderState) (content : String),
      ∀ t ∈ (load_tweets_from_jl jl self content).1,
        ∃ s, inject_user_dict self s = .ok t) ∧
    (∀ (sid : Option Nat) (pages : List (List Toot)),
      ∀ t2 ∈ (load_toots_from_api sid pages).1,
        ∃ t ∈ pages.flatten, t2 = processToot t) ∧
    (∀ (fq fqn : String), fq ≠ "" → fq ≠ fqn → ':' ∉ fqn.data →
      mastodonLoaderDispatch (some fq) ("masto-api:" ++ fqn)
        = .error .identityMismatch) := by
  refine ⟨?_, ?_, ?_, ?_, ?_, ?_, ?_, ?_⟩
  · intro self stream
    induction stream with
    | nil => rfl
    | cons s rest ih =>
      simp [load_tweets_from_api, ih]
  · intro self stream
    induction stream with
    | nil => intro h; exact .nil
    | cons s rest ih =>
      intro h
      rcases hi : inject_user_dict self s with e | t0
      · simp [load_tweets_from_api, hi] at h
      · simp only [load_tweets_from_api, hi] at h ⊢
        simp only [if_pos, reduceIte] at h ⊢
        exact .cons hi (ih h)
  · intro attempts fuel self cs
    induction cs with
    | nil =>
      intro r h t ht
      cases h
      simp at ht
    | cons cnk rest ih =>
      intro r h t ht
      simp only [processLikeChunks] at h
      split at h
      · cases h
      · rename_i statuses hlk
        split at h
        · cases h; simp at ht
        · rename_i ts hinj
          split at h
          · cases h
          · rename_i r0 hrec
            cases h
            simp only at ht
            rcases List.mem_append.mp ht with h1 | h1
            · exact injectList_ok_user hinj t h1
            · exact ih r0 hrec t h1
  · intro jp self content t ht
    simp only [load_tweets_from_js] at ht
    split at ht
    · simp at ht
    · rename_i data hjp
      exact processJsItems_inject data t ht
  · intro jp self files t ht
    exact load_tweets_from_js_dir_inject files t ht
  · intro jl self content t ht
    exact processJlLines_inject _ t ht
  · intro sid pages t2 ht
    exact load_toots_from_api_yield pages t2 ht
  · intro fq fqn hfq hne hcol
    simp only [mastodonLoaderDispatch, strStartsWith_masto_api fqn, if_true,
      strSplitOnChar_masto_api fqn hcol]
    rw [if_pos ⟨by simpa [optStrTruthy] using hfq, by simpa using hne⟩]

/-- Witness for C3 (amended): the timeline variant injects the fallback
identity into a concrete record; a successful concrete likes lookup yields
only records carrying an author; a concrete single-file archive record was
passed through `inject_user_dict`; and dispatching `masto-api:bob@example.social`
against the run author alice fails with the identity-mismatch error. -/
theorem identity_check_application_witness :
    List.Forall₂ (fun s t => inject_user_dict { user_dict := some ⟨"bob"⟩ } s = .ok t)
      [⟨50, none, .str "", none⟩]
      (load_tweets_from_api { user_dict := some ⟨"bob"⟩ } "user_timeline"
        [⟨50, none, .str "", none⟩]).1 ∧
    (∀ t ∈ [(⟨50, some ⟨"bob"⟩, .str "", none⟩ : Status)], t.user.isSome) ∧
    (∃ s, inject_user_dict { since_id := 100 } s = .ok ⟨101, some ⟨"a"⟩, .str "", none⟩) ∧
    mastodonLoaderDispatch (some "alice") ("masto-api:" ++ "bob@example.social")
      = .error .identityMismatch :=
  ⟨identity_check_application.2.1 { user_dict := some ⟨"bob"⟩ } [⟨50, none, .str "", none⟩] rfl,
   identity_check_application.2.2.1 noUserProvider 1 { user_dict := some ⟨"bob"⟩ }
     [[50]] ([⟨50, some ⟨"bob"⟩, .str "", none⟩], none) rfl,
   identity_check_application.2.2.2.1
     (fun s => if s = "[]" then some [⟨⟨91, some ⟨"a"⟩, .str "", none⟩⟩,
                                      ⟨⟨101, some ⟨"a"⟩, .str "", none⟩⟩] else none)
     { since_id := 100 } "window.YTD.tweet.part0 = []"
     ⟨101, some ⟨"a"⟩, .str "", none⟩ (by exact List.mem_singleton_self _),
   identity_check_application.2.2.2.2.2.2.2 "alice" "bob@example.social"
     (by decide) (by decide) (by decide)⟩

/-!  Federated-network pagination lemmas. -/

theorem scanTootPage_all_above {W : Nat} :
    ∀ page : List Toot, (∀ t ∈ page, W < t.id) →
      scanTootPage (some W) page = (page.map processToot, false) := by
  intro page
  induction page with
  | nil => intro _; rfl
  | cons x xs ih =>
    intro h
    have hx : W < x.id := h x (List.mem_cons_self x xs)
    have hb : tootAtOrBelowWatermark (some W) x = false := by
      simp [tootAtOrBelowWatermark, Nat.not_le.mpr hx]
    simp [scanTootPage, hb, ih (fun t ht => h t (List.mem_cons_of_mem x ht))]

theorem scanTootPage_boundary {W : Nat} (hW : 0 < W) :
    ∀ (pre post : List Toot) (b : Toot), (∀ t ∈ pre, W < t.id) → b.id ≤ W →
      scanTootPage (some W) (pre ++ b :: post) = (pre.map processToot, true) := by
  intro pre
  induction pre with
  | nil =>
    intro post b _ hb
    have hbb : tootAtOrBelowWatermark (some W) b = true := by
      simp [tootAtOrBelowWatermark, hb, Nat.pos_iff_ne_zero.mp hW]
    simp [scanTootPage, hbb]
  | cons x xs ih =>
    intro post b h hb
    have hx : W < x.id := h x (List.mem_cons_self x xs)
    have hxf : tootAtOrBelowWatermark (some W) x = false := by
      simp [tootAtOrBelowWatermark, Nat.not_le.mpr hx]
    simp [scanTootPage, hxf, ih post b (fun t ht => h t (List.mem_cons_of_mem x ht)) hb]

theorem load_toots_run {W : Nat} (hW : 0 < W) :
    ∀ (front back : List (List Toot)) (pre post : List Toot) (b : Toot),
      (∀ pg ∈ front, pg ≠ [] ∧ ∀ t ∈ pg, W < t.id) →
      (∀ t ∈ pre, W < t.id) → b.id ≤ W →
      load_toots_from_api (some W) (front ++ (pre ++ b :: post) :: back)
        = ((front.flatten ++ pre).map processToot, front.length + 1) := by
  intro front
  induction front with
  | nil =>
    intro back pre post b _ hpre hb
    have hEmp : (pre ++ b :: post).isEmpty = false := by cases pre <;> rfl
    simp [load_toots_from_api, hEmp, scanTootPage_boundary hW pre post b hpre hb]
  | cons pg front2 ih =>
    intro back pre post b hfront hpre hb
    obtain ⟨hne, habove⟩ := hfront pg (List.mem_cons_self pg front2)
    have hEmp : pg.isEmpty = false := by
      cases pg with
      | nil => exact absurd rfl hne
      | cons y ys => rfl
    have hrec := ih back pre post b
      (fun pg2 hpg2 => hfront pg2 (List.mem_cons_of_mem pg hpg2)) hpre hb
    simp [load_toots_from_api, hEmp, scanTootPage_all_above pg habove, hrec,
      List.map_append]

theorem load_toots_empty_page {W : Nat} :
    ∀ (front back : List (List Toot)),
      (∀ pg ∈ front, pg ≠ [] ∧ ∀ t ∈ pg, W < t.id) →
      load_toots_from_api (some W) (front ++ [] :: back)
        = (front.flatten.map processToot, front.length + 1) := by
  intro front
  induction front with
  | nil => intro back _; rfl
  | cons pg front2 ih =>
    intro back hfront
    obtain ⟨hne, habove⟩ := hfront pg (List.mem_cons_self pg front2)
    have hEmp : pg.isEmpty = false := by
      cases pg with
      | nil => exact absurd rfl hne
      | cons y ys => rfl
    have hrec := ih back (fun pg2 hpg2 => hfront pg2 (List.mem_cons_of_mem pg hpg2))
    simp [load_toots_from_api, hEmp, scanTootPage_all_above pg habove, hrec,
      List.map_append]

theorem flatten_filter_above {W : Nat} (front back : List (List Toot))
    (pre post : List Toot) (b : Toot)
    (hfront : ∀ pg ∈ front, pg ≠ [] ∧ ∀ t ∈ pg, W < t.id)
    (hpre : ∀ t ∈ pre, W < t.id) (hb : b.id ≤ W)
    (hdesc : ((front ++ (pre ++ b :: post) :: back).flatten).Pairwise
      (fun a b => b.id < a.id)) :
    ((front ++ (pre ++ b :: post) :: back).flatten).filter (fun t => W < t.id)
      = front.flatten ++ pre := by
  have hflat : (front ++ (pre ++ b :: post) :: back).flatten
      = (front.flatten ++ pre) ++ (b :: (post ++ back.flatten)) := by
    simp [List.flatten_append, List.append_assoc]
  rw [hflat] at hdesc ⊢
  rw [List.filter_append]
  have h1 : (front.flatten ++ pre).filter (fun t => W < t.id) = front.flatten ++ pre := by
    rw [List.filter_eq_self]
    intro a ha
    rcases List.mem_append.mp ha with h | h
    · rcases List.mem_flatten.mp h with ⟨pg, hpg, hapg⟩
      exact decide_eq_true ((hfront pg hpg).2 a hapg)
    · exact decide_eq_true (hpre a h)
  have h2 : (b :: (post ++ back.flatten)).filter (fun t => W < t.id) = [] := by
    rw [List.filter_eq_nil_iff]
    have hpw := (List.pairwise_append.mp hdesc).2.1
    intro a ha
    rcases List.mem_cons.mp ha with h | h
    · subst h; simpa using Nat.not_lt.mpr hb
    · have hab : a.id < b.id := (List.pairwise_cons.mp hpw).1 a h
      simpa using Nat.not_lt.mpr (le_of_lt (lt_of_le_of_lt' hb hab))
  rw [h1, h2, List.append_nil]

/-- C4 (confirmed): for the federated-network strategy with a nonzero
watermark `W` and a provider delivering strictly descending ids: when the
boundary record `b` (with `id ≤ W`) appears on the page after `front`
boundary-free non-empty pages, the loader yields exactly the
provider-delivered records with `id > W`, in provider-delivered order, and the
boundary page is the last of the `front.length + 1` pages consumed; when an
empty page follows `front` such pages, the loop also stops with it as the last
page consumed; and no record with `id ≤ W` is ever yielded.  (The `max_id`
cursor walks backward from most recent, which is what makes the
provider-delivered stream descending.) -/
theorem masto_pagination_watermark :
    (∀ (front back : List (List Toot)) (pre post : List Toot) (b : Toot) (W : Nat),
      0 < W →
      (∀ pg ∈ front, pg ≠ [] ∧ ∀ t ∈ pg, W < t.id) →
      (∀ t ∈ pre, W < t.id) →
      b.id ≤ W →
      ((front ++ (pre ++ b :: post) :: back).flatten).Pairwise (fun a b => b.id < a.id) →
      load_toots_from_api (some W) (front ++ (pre ++ b :: post) :: back)
        = ((((front ++ (pre ++ b :: post) :: back).flatten).filter
              (fun t => W < t.id)).map processToot,
           front.length + 1)) ∧
    (∀ (front back : List (List Toot)) (W : Nat),
      0 < W →
      (∀ pg ∈ front, pg ≠ [] ∧ ∀ t ∈ pg, W < t.id) →
      load_toots_from_api (some W) (front ++ [] :: back)
        = (front.flatten.map processToot, front.length + 1)) ∧
    (∀ (W : Nat) (pages : List (List Toot)), 0 < W →
      ∀ t ∈ (load_toots_from_api (some W) pages).1, W < t.id) := by
  refine ⟨?_, ?_, ?_⟩
  · intro front back pre post b W hW hfront hpre hb hdesc
    rw [load_toots_run hW front back pre post b hfront hpre hb,
      flatten_filter_above front back pre post b hfront hpre hb hdesc]
  · intro front back W hW hfront
    exact load_toots_empty_page front back hfront
  · intro W pages hW t ht
    exact load_toots_from_api_above hW pages t ht

/-- Witness for C4: pages `[[105, 103], [101, 99, 98], [97]]` under watermark
100: the boundary 99 sits on page 2, so exactly `[105, 103, 101]` is yielded
(processed) and exactly 2 provider calls are made. -/
theorem masto_pagination_watermark_witness :
    load_toots_from_api (some 100)
        [[⟨105, "", none⟩, ⟨103, "", none⟩],
         [⟨101, "", none⟩, ⟨99, "", none⟩, ⟨98, "", none⟩],
         [⟨97, "", none⟩]]
      = ((([[(⟨105, "", none⟩ : Toot), ⟨103, "", none⟩],
            [⟨101, "", none⟩, ⟨99, "", none⟩, ⟨98, "", none⟩],
            [⟨97, "", none⟩]].flatten).filter (fun t => 100 < t.id)).map processToot,
         2) :=
  masto_pagination_watermark.1
    [[⟨105, "", none⟩, ⟨103, "", none⟩]] [[⟨97, "", none⟩]]
    [⟨101, "", none⟩] [⟨98, "", none⟩] ⟨99, "", none⟩ 100
    (by decide) (by decide) (by decide) (by decide) (by decide)


end Tbeat
